import Mathlib

/-!
Shallow embedding of the diet-bot backend (src/backend/index.js).

The week-progress record stored at `user.progress[week]` is a single flat
JavaScript object whose keys are task keys (mapping to booleans) together
with the bookkeeping keys `"daily"` (a map from day name to a day counter),
`"total"` and `"completed"` (numbers).  We model such an object as an
ordered association list from `String` to a value type `Val`; assignment
to an existing key overwrites in place, assignment to a fresh key appends,
exactly as JavaScript object assignment behaves for non-integer keys.

Property reads on primitive values (e.g. `true.someDay`) yield `undefined`
in JavaScript and a subsequent field write throws a `TypeError`; the
embedding returns `Option.none` from an update in those cases.  (Prototype
chain property names such as `"toString"` are not modelled; no theorem
below concerns such keys.)
-/

/-- JavaScript `s.startsWith(p)`. -/
def jsStartsWith (s p : String) : Bool :=
  p.toList.isPrefixOf s.toList

/-- Whether `p` occurs as a contiguous sublist of `l`. -/
def listHasSeq (l p : List Char) : Bool :=
  match l with
  | [] => p.isEmpty
  | _ :: rest => p.isPrefixOf l || listHasSeq rest p

/-- JavaScript `s.includes(p)` (substring containment). -/
def jsIncludes (s p : String) : Bool :=
  listHasSeq s.toList p.toList

/-- Whether `task.split('_').length > 1`, i.e. the task key contains an
underscore. -/
def hasUnderscore (task : String) : Bool :=
  task.toList.contains '_'

/-- The characters before the first underscore, i.e. `task.split('_')[0]`. -/
def dayOf (task : String) : String :=
  ⟨task.toList.takeWhile (fun c => c ≠ '_')⟩

/-- The `{ completed, total }` object kept per day in
`progress[week].daily` (src/backend/index.js:427). -/
structure DayCounter where
  completed : Nat
  total : Nat
deriving DecidableEq

/-- A value stored in the flat `progress[week]` object: a task-completion
boolean, a number (the `total` / `completed` counters) or the `daily`
map. -/
inductive Val where
  | vb (b : Bool)
  | vn (n : Nat)
  | vdaily (d : List (String × DayCounter))
deriving DecidableEq

/-- The `progress[week]` object, as an ordered association list. -/
abbrev WeekObj := List (String × Val)

/-- Property read on a JavaScript object: first binding of the key. -/
def getV : WeekObj → String → Option Val
  | [], _ => none
  | (k', v') :: rest, k => if k' = k then some v' else getV rest k

/-- Property write on a JavaScript object: overwrite in place if the key
exists, append otherwise. -/
def setV : WeekObj → String → Val → WeekObj
  | [], k, v => [(k, v)]
  | (k', v') :: rest, k, v =>
    if k' = k then (k, v) :: rest else (k', v') :: setV rest k v

/-- Read a day counter from the `daily` map. -/
def getD : List (String × DayCounter) → String → Option DayCounter
  | [], _ => none
  | (k', c) :: rest, k => if k' = k then some c else getD rest k

/-- Write a day counter into the `daily` map. -/
def setD : List (String × DayCounter) → String → DayCounter → List (String × DayCounter)
  | [], k, c => [(k, c)]
  | (k', c') :: rest, k, c =>
    if k' = k then (k, c) :: rest else (k', c') :: setD rest k c

/-- JavaScript truthiness of a property read: `undefined`, `false` and `0`
are falsy; every object (in particular an empty one) is truthy. -/
def truthy : Option Val → Bool
  | none => false
  | some (.vb b) => b
  | some (.vn n) => n ≠ 0
  | some (.vdaily _) => true

/-- Keys counted by the week-level recount:
`Object.keys(progress[week]).filter(key => !key.includes('daily'))`
(src/backend/index.js:445-447). -/
def weekTaskKeys (wp : WeekObj) : List String :=
  (wp.map Prod.fst).filter (fun k => !(jsIncludes k "daily"))

/-- The count `Object.entries(progress[week]).filter(([key, value]) =>
!key.includes('daily') && value === true).length`
(src/backend/index.js:449-451). -/
def weekCompletedCount (wp : WeekObj) : Nat :=
  (wp.filter (fun kv => !(jsIncludes kv.1 "daily") && decide (kv.2 = Val.vb true))).length

/-- Lines 444-454 of src/backend/index.js: recompute and store the
week-level `total` and `completed` counters. -/
def recountWeek (wp : WeekObj) : WeekObj :=
  setV (setV wp "total" (.vn (weekTaskKeys wp).length))
    "completed" (.vn (weekCompletedCount wp))

/-- Lines 416-418: `if (!progress[week].daily) progress[week].daily = {}`. -/
def ensureDaily (wp : WeekObj) : WeekObj :=
  if truthy (getV wp "daily") then wp else setV wp "daily" (.vdaily [])

/-- Lines 423-441: the per-day aggregation for the day parsed from the
task key.  If the `daily` property does not hold an object the JavaScript
code ends up writing a field of `undefined` and throws, modelled as
`none`. -/
def recountDay (wp : WeekObj) (day : String) : Option WeekObj :=
  match getV wp "daily" with
  | some (Val.vdaily d0) =>
    let d1 :=
      if (getD d0 day).isSome then d0
      else
        let dayTasks :=
          (wp.map Prod.fst).filter (fun k => jsStartsWith k (day ++ "_"))
        setD d0 day { completed := 0, total := dayTasks.length }
    let completedDayTasks :=
      (wp.filter (fun kv =>
        jsStartsWith kv.1 (day ++ "_") && decide (kv.2 = Val.vb true))).length
    let d2 :=
      match getD d1 day with
      | some c => setD d1 day { c with completed := completedDayTasks }
      | none => d1
    some (setV wp "daily" (Val.vdaily d2))
  | _ => none

/-- Lines 412-454 of `updateProgress`, acting on one week object:
store the completion flag, ensure `daily` exists, aggregate per day when
the key has the `day_slot` shape, then recount the week totals. -/
def updateWeekObj (wp : WeekObj) (task : String) (completed : Bool) : Option WeekObj :=
  let wp1 := setV wp task (.vb completed)
  let wp2 := ensureDaily wp1
  let wp3? := if hasUnderscore task then recountDay wp2 (dayOf task) else some wp2
  wp3?.map recountWeek

/-- A record of the `users` collection: chat id, optional start date
(milliseconds since epoch) and the per-week progress objects. -/
structure User where
  chatId : Int
  startDate : Option Int
  progress : List (Nat × WeekObj)
deriving DecidableEq

/-- Lookup `db.get("users").find({ chatId })`: first user with the given id. -/
def findUser : List User → Int → Option User
  | [], _ => none
  | u :: rest, c => if u.chatId = c then some u else findUser rest c

/-- lowdb `.find({ chatId }).assign(...)`: replace the first matching
user. -/
def replaceFirstUser : List User → Int → User → List User
  | [], _, _ => []
  | u :: rest, c, u' => if u.chatId = c then u' :: rest else u :: replaceFirstUser rest c u'

/-- Read `user.progress[week]`. -/
def getW : List (Nat × WeekObj) → Nat → Option WeekObj
  | [], _ => none
  | (w', wp) :: rest, w => if w' = w then some wp else getW rest w

/-- Write `user.progress[week]`. -/
def setW : List (Nat × WeekObj) → Nat → WeekObj → List (Nat × WeekObj)
  | [], w, wp => [(w, wp)]
  | (w', wp') :: rest, w, wp =>
    if w' = w then (w, wp) :: rest else (w', wp') :: setW rest w wp

/-- Function `updateProgress(chatId, task, week, completed)`
(src/backend/index.js:394-461).  Returns the updated users collection, or
`none` when the JavaScript code would throw; an unknown chat id is a
silent no-op. -/
def updateProgress (users : List User) (chatId : Int) (task : String)
    (week : Nat) (completed : Bool) : Option (List User) :=
  match findUser users chatId with
  | none => some users
  | some u =>
    let wp := (getW u.progress week).getD []
    (updateWeekObj wp task completed).map (fun wp' =>
      replaceFirstUser users chatId { u with progress := setW u.progress week wp' })

/-- The zero-valued progress object returned when a user or week has no
progress (src/backend/index.js:515-521). -/
def emptyProgress : WeekObj :=
  [("daily", Val.vdaily []), ("total", Val.vn 0), ("completed", Val.vn 0)]

/-- Canonical day names scanned by the lazy backfill
(src/backend/index.js:487). -/
def daysOfWeek : List String :=
  ["monday", "tuesday", "wednesday", "thursday", "friday", "saturday", "sunday"]

/-- Lines 483-510: set `daily = {}` and, for each canonical day with at
least one `"<day>_"`-prefixed key, store its recomputed day counter. -/
def backfillWeek (wp : WeekObj) : WeekObj :=
  let wp1 := setV wp "daily" (Val.vdaily [])
  let d := daysOfWeek.foldl (fun d day =>
    let dayTasks :=
      (wp1.map Prod.fst).filter (fun k => jsStartsWith k (day ++ "_"))
    if dayTasks.length > 0 then
      let completedDayTasks :=
        (dayTasks.filter (fun k => decide (getV wp1 k = some (Val.vb true)))).length
      setD d day { completed := completedDayTasks, total := dayTasks.length }
    else d) []
  setV wp1 "daily" (Val.vdaily d)

/-- The `/get-progress` handler (src/backend/index.js:474-523): returns
the reported progress object together with the (possibly backfilled)
users collection. -/
def getProgress (users : List User) (chatId : Int) (week : Nat) : WeekObj × List User :=
  match findUser users chatId with
  | none => (emptyProgress, users)
  | some u =>
    match getW u.progress week with
    | none => (emptyProgress, users)
    | some wp =>
      if truthy (getV wp "daily") then (wp, users)
      else
        let wp' := backfillWeek wp
        (wp', replaceFirstUser users chatId { u with progress := setW u.progress week wp' })

/-- Milliseconds per day, `1000 * 60 * 60 * 24` (src/backend/index.js:87). -/
def msPerDay : Nat := 1000 * 60 * 60 * 24

/-- Lines 82-93 of `calculateCurrentWeek`: days elapsed from the absolute
time difference, 1-indexed week, capped at 8. -/
def calculateCurrentWeek (startDate now : Int) : Nat :=
  let diffDays := (now - startDate).natAbs / msPerDay
  min (diffDays / 7 + 1) 8

/-- Week computation including the missing-start-date default of
week 1 (src/backend/index.js:78-80). -/
def currentWeekOfUser (startDate : Option Int) (now : Int) : Nat :=
  match startDate with
  | none => 1
  | some s => calculateCurrentWeek s now

/-- A `{ title, description }` entry of the fixed schedule template. -/
structure SlotTask where
  title : String
  description : String
deriving DecidableEq

/-- A row of the `workouts` collection (per chat id, kept implicit). -/
structure Workout where
  week : Nat
  day : String
  title : String
  description : String
  details : String
deriving DecidableEq

/-- A row of the `meals` collection (per chat id, kept implicit). -/
structure Meal where
  day : String
  mainMeal : String
  snack : String
deriving DecidableEq

/-- A resolved schedule entry: title, description, and the optional
`mealContent` property attached to meal slots. -/
structure ResolvedEntry where
  title : String
  description : String
  mealContent : Option String
deriving DecidableEq

/-- A template entry passed through unchanged. -/
def baseResolved (t : SlotTask) : ResolvedEntry :=
  { title := t.title, description := t.description, mealContent := none }

/-- Resolution of one `(time, task)` template entry inside
`getScheduleForDay` (src/backend/index.js:332-364).  `gw` and `gm` stand
for the `getWorkout(chatId, week, ·)` and `getMeal(chatId, ·)` lookups. -/
def resolveSlot (week : Nat) (gw : Nat → String → Option Workout)
    (gm : String → Option Meal) (day : String) (st : String × SlotTask) :
    String × ResolvedEntry :=
  if st.1 = "17:00" then
    match gw week day with
    | some w => (st.1, { title := w.title, description := w.description, mealContent := none })
    | none => (st.1, baseResolved st.2)
  else if st.1 = "16:00" ∨ st.1 = "22:00" then
    match gm day with
    | some m =>
      (st.1, { title := st.2.title, description := st.2.description,
               mealContent := some (if st.1 = "16:00" then m.snack else m.mainMeal) })
    | none => (st.1, baseResolved st.2)
  else (st.1, baseResolved st.2)

/-- Function `getScheduleForDay` (src/backend/index.js:326-367), applied to a
schedule template that exists.  The week argument stands for the
`calculateCurrentWeek(chatId)` value computed at line 335. -/
def getScheduleForDay (schedule : List (String × SlotTask)) (week : Nat)
    (gw : Nat → String → Option Workout) (gm : String → Option Meal)
    (day : String) : List (String × ResolvedEntry) :=
  schedule.map (resolveSlot week gw gm day)

/-- States that the `daily` property of a week object is absent or falsy
or holds a day-counter map — the states in which the day-aggregation
branch of `updateProgress` cannot throw. -/
def dailyOk (wp : WeekObj) : Bool :=
  match getV wp "daily" with
  | some (Val.vb true) => false
  | some (Val.vn n) => n = 0
  | _ => true

/-! ### Helper lemmas about the association-list object model -/

theorem getV_setV_self (wp : WeekObj) (k : String) (v : Val) :
    getV (setV wp k v) k = some v := by
  induction wp with
  | nil => simp [setV, getV]
  | cons kv rest ih =>
    obtain ⟨k', v'⟩ := kv
    by_cases h : k' = k
    · simp [setV, getV, h]
    · simp [setV, getV, h, ih]

theorem getV_setV_ne (wp : WeekObj) (k k' : String) (v : Val) (h : k ≠ k') :
    getV (setV wp k v) k' = getV wp k' := by
  induction wp with
  | nil => simp [setV, getV, h]
  | cons kv rest ih =>
    obtain ⟨k0, v0⟩ := kv
    by_cases h0 : k0 = k
    · subst h0
      simp [setV, getV, h]
    · by_cases h1 : k0 = k'
      · simp [setV, getV, h0, h1, Ne.symm h]
      · simp [setV, getV, h0, h1, ih]

theorem getV_some_mem (wp : WeekObj) (k : String) (v : Val)
    (h : getV wp k = some v) : k ∈ wp.map Prod.fst := by
  induction wp with
  | nil => simp [getV] at h
  | cons kv rest ih =>
    obtain ⟨k0, v0⟩ := kv
    simp only [getV] at h
    rw [List.map_cons, List.mem_cons]
    by_cases h0 : k0 = k
    · exact Or.inl h0.symm
    · rw [if_neg h0] at h
      exact Or.inr (ih h)

theorem mem_keys_setV_self (wp : WeekObj) (k : String) (v : Val) :
    k ∈ (setV wp k v).map Prod.fst := by
  induction wp with
  | nil => simp [setV]
  | cons kv rest ih =>
    obtain ⟨k0, v0⟩ := kv
    simp only [setV]
    by_cases h0 : k0 = k
    · rw [if_pos h0, List.map_cons, List.mem_cons]
      exact Or.inl rfl
    · rw [if_neg h0, List.map_cons, List.mem_cons]
      exact Or.inr ih

theorem mem_keys_setV_of_mem (wp : WeekObj) (k k' : String) (v : Val)
    (h : k' ∈ wp.map Prod.fst) : k' ∈ (setV wp k v).map Prod.fst := by
  induction wp with
  | nil => simp at h
  | cons kv rest ih =>
    obtain ⟨k0, v0⟩ := kv
    rw [List.map_cons, List.mem_cons] at h
    simp only [setV]
    by_cases h0 : k0 = k
    · rw [if_pos h0, List.map_cons, List.mem_cons]
      rcases h with h | h
      · exact Or.inl (h.trans h0)
      · exact Or.inr h
    · rw [if_neg h0, List.map_cons, List.mem_cons]
      rcases h with h | h
      · exact Or.inl h
      · exact Or.inr (ih h)

theorem getW_setW_self (p : List (Nat × WeekObj)) (w : Nat) (wp : WeekObj) :
    getW (setW p w wp) w = some wp := by
  induction p with
  | nil => simp [setW, getW]
  | cons kv rest ih =>
    obtain ⟨w0, wp0⟩ := kv
    by_cases h : w0 = w
    · simp [setW, getW, h]
    · simp [setW, getW, h, ih]

theorem findUser_chatId : ∀ (users : List User) (c : Int) (u : User),
    findUser users c = some u → u.chatId = c := by
  intro users
  induction users with
  | nil => intro c u h; simp [findUser] at h
  | cons u0 rest ih =>
    intro c u h
    by_cases h0 : u0.chatId = c
    · simp only [findUser, if_pos h0] at h
      rw [← Option.some_inj.mp h]
      exact h0
    · simp only [findUser, if_neg h0] at h
      exact ih c u h

theorem findUser_replaceFirst : ∀ (users : List User) (c : Int) (u u' : User),
    findUser users c = some u → u'.chatId = c →
    findUser (replaceFirstUser users c u') c = some u' := by
  intro users
  induction users with
  | nil => intro c u u' h _; simp [findUser] at h
  | cons u0 rest ih =>
    intro c u u' h hc
    by_cases h0 : u0.chatId = c
    · simp only [replaceFirstUser, if_pos h0, findUser, if_pos hc]
    · simp only [findUser, if_neg h0] at h
      simp only [replaceFirstUser, if_neg h0, findUser, if_neg h0]
      exact ih c u u' h hc

/-! ### Lemmas about the week recount helpers -/

theorem weekTaskKeys_setV (wp : WeekObj) (k : String) (v : Val)
    (h : jsIncludes k "daily" = true) :
    weekTaskKeys (setV wp k v) = weekTaskKeys wp := by
  induction wp with
  | nil => simp [setV, weekTaskKeys, h]
  | cons kv rest ih =>
    obtain ⟨k0, v0⟩ := kv
    by_cases h0 : k0 = k
    · subst h0
      simp [setV, weekTaskKeys, List.filter_cons, h]
    · simp only [setV, if_neg h0]
      simp only [weekTaskKeys, List.map_cons, List.filter_cons] at ih ⊢
      rw [ih]

theorem weekCompletedCount_setV (wp : WeekObj) (k : String) (v : Val)
    (h : jsIncludes k "daily" = true) :
    weekCompletedCount (setV wp k v) = weekCompletedCount wp := by
  induction wp with
  | nil => simp [setV, weekCompletedCount, List.filter_cons, h]
  | cons kv rest ih =>
    obtain ⟨k0, v0⟩ := kv
    by_cases h0 : k0 = k
    · subst h0
      simp [setV, weekCompletedCount, List.filter_cons, h]
    · simp only [setV, if_neg h0]
      simp only [weekCompletedCount, List.filter_cons] at ih ⊢
      by_cases hp : (!(jsIncludes k0 "daily") && decide (v0 = Val.vb true)) = true
      · simp [hp, ih]
      · simp [hp, ih]

theorem getV_ensureDaily_ne (wp : WeekObj) (k : String) (h : k ≠ "daily") :
    getV (ensureDaily wp) k = getV wp k := by
  unfold ensureDaily
  split
  · rfl
  · exact getV_setV_ne wp "daily" k _ (Ne.symm h)

theorem weekTaskKeys_ensureDaily (wp : WeekObj) :
    weekTaskKeys (ensureDaily wp) = weekTaskKeys wp := by
  unfold ensureDaily
  split
  · rfl
  · exact weekTaskKeys_setV wp "daily" _ (by decide)

theorem weekCompletedCount_ensureDaily (wp : WeekObj) :
    weekCompletedCount (ensureDaily wp) = weekCompletedCount wp := by
  unfold ensureDaily
  split
  · rfl
  · exact weekCompletedCount_setV wp "daily" _ (by decide)

theorem getV_recountWeek_total (wp : WeekObj) :
    getV (recountWeek wp) "total" = some (Val.vn (weekTaskKeys wp).length) := by
  unfold recountWeek
  rw [getV_setV_ne _ "completed" "total" _ (by decide), getV_setV_self]

theorem getV_recountWeek_completed (wp : WeekObj) :
    getV (recountWeek wp) "completed" = some (Val.vn (weekCompletedCount wp)) := by
  unfold recountWeek
  rw [getV_setV_self]

theorem getV_recountWeek_ne (wp : WeekObj) (k : String)
    (h1 : k ≠ "total") (h2 : k ≠ "completed") :
    getV (recountWeek wp) k = getV wp k := by
  unfold recountWeek
  rw [getV_setV_ne _ "completed" k _ (Ne.symm h2), getV_setV_ne _ "total" k _ (Ne.symm h1)]

/-! ### Claim theorems -/

/-- C4: `currentWeek(startTimestamp, now)` equals
`min(floor(floor(|now - startTimestamp| / 86400s) / 7) + 1, 8)`; for all
`now >= startTimestamp` it lies in `[1, 8]` and is non-decreasing in
`now`; `currentWeek(start, start) = 1`; at `start + 10` days it is `2`;
at `start + 60` days it is `8` (capped); a user with no start timestamp
maps to week 1. -/
theorem calculateCurrentWeek_spec :
    (∀ s n : Int, calculateCurrentWeek s n = min ((n - s).natAbs / msPerDay / 7 + 1) 8) ∧
    (∀ s n : Int, s ≤ n → 1 ≤ calculateCurrentWeek s n ∧ calculateCurrentWeek s n ≤ 8) ∧
    (∀ s n n' : Int, s ≤ n → n ≤ n' → calculateCurrentWeek s n ≤ calculateCurrentWeek s n') ∧
    (∀ s : Int, calculateCurrentWeek s s = 1) ∧
    (∀ s : Int, calculateCurrentWeek s (s + 10 * (msPerDay : Int)) = 2) ∧
    (∀ s : Int, calculateCurrentWeek s (s + 60 * (msPerDay : Int)) = 8) ∧
    (∀ now : Int, currentWeekOfUser none now = 1) := by
  refine ⟨fun s n => rfl, fun s n _ => ⟨?_, ?_⟩, ?_, ?_, ?_, ?_, fun _ => rfl⟩
  · exact le_min (Nat.succ_le_succ (Nat.zero_le _)) (by norm_num)
  · exact min_le_right _ _
  · intro s n n' _ hnn
    show min ((n - s).natAbs / msPerDay / 7 + 1) 8 ≤ min ((n' - s).natAbs / msPerDay / 7 + 1) 8
    have h1 : (n - s).natAbs ≤ (n' - s).natAbs := by omega
    exact min_le_min (Nat.add_le_add_right (Nat.div_le_div_right (Nat.div_le_div_right h1)) 1) le_rfl
  · intro s
    show min ((s - s).natAbs / msPerDay / 7 + 1) 8 = 1
    rw [sub_self]
    decide
  · intro s
    show min ((s + 10 * (msPerDay : Int) - s).natAbs / msPerDay / 7 + 1) 8 = 2
    have h : s + 10 * (msPerDay : Int) - s = 10 * (msPerDay : Int) := by ring
    rw [h]
    decide
  · intro s
    show min ((s + 60 * (msPerDay : Int) - s).natAbs / msPerDay / 7 + 1) 8 = 8
    have h : s + 60 * (msPerDay : Int) - s = 60 * (msPerDay : Int) := by ring
    rw [h]
    decide

/-- Witness for C4 at concrete inputs, discharging the ordering
hypotheses. -/
theorem calculateCurrentWeek_spec_witness :
    ((0 : Int) ≤ 5 ∧ 1 ≤ calculateCurrentWeek 0 5 ∧ calculateCurrentWeek 0 5 ≤ 8) ∧
    calculateCurrentWeek 0 5 ≤ calculateCurrentWeek 0 999999999 :=
  ⟨⟨by decide, calculateCurrentWeek_spec.2.1 0 5 (by decide)⟩,
   calculateCurrentWeek_spec.2.2.1 0 5 999999999 (by decide) (by decide)⟩

/-- C9: because the elapsed time is taken in absolute value, for `now`
earlier than `startTimestamp` the week is computed from the future
distance, and a start more than 7 days in the future already reports
week 2 or higher. -/
theorem calculateCurrentWeek_future_start :
    (∀ s n : Int, n < s → calculateCurrentWeek s n = min ((s - n).natAbs / msPerDay / 7 + 1) 8) ∧
    (∀ s n : Int, n + 7 * (msPerDay : Int) < s → 2 ≤ calculateCurrentWeek s n) := by
  constructor
  · intro s n _
    show min ((n - s).natAbs / msPerDay / 7 + 1) 8 = min ((s - n).natAbs / msPerDay / 7 + 1) 8
    have h : (n - s).natAbs = (s - n).natAbs := by omega
    rw [h]
  · intro s n h
    show 2 ≤ min ((n - s).natAbs / msPerDay / 7 + 1) 8
    have hms : msPerDay = 86400000 := by norm_num [msPerDay]
    have h1 : 7 * msPerDay + 1 ≤ (n - s).natAbs := by
      rw [hms] at h ⊢
      omega
    have h2 : 7 ≤ (n - s).natAbs / msPerDay := by
      rw [Nat.le_div_iff_mul_le (by rw [hms]; norm_num)]
      omega
    have h3 : 1 ≤ (n - s).natAbs / msPerDay / 7 := by
      rw [Nat.le_div_iff_mul_le (by norm_num)]
      omega
    exact le_min (by omega) (by norm_num)

/-- Witness for C9: a start 8 days in the future reports week 2. -/
theorem calculateCurrentWeek_future_start_witness :
    ((0 : Int) < 8 * (msPerDay : Int) ∧
      calculateCurrentWeek (8 * (msPerDay : Int)) 0 =
        min ((8 * (msPerDay : Int) - 0).natAbs / msPerDay / 7 + 1) 8) ∧
    ((0 : Int) + 7 * (msPerDay : Int) < 8 * (msPerDay : Int) ∧
      2 ≤ calculateCurrentWeek (8 * (msPerDay : Int)) 0) :=
  ⟨⟨by decide, calculateCurrentWeek_future_start.1 (8 * (msPerDay : Int)) 0 (by decide)⟩,
   ⟨by decide, calculateCurrentWeek_future_start.2 (8 * (msPerDay : Int)) 0 (by decide)⟩⟩

/-- C6: `recordCompletion` with a chat id that matches no enrolled user
raises no error and leaves the whole users collection unchanged. -/
theorem updateProgress_unknown_user_noop (users : List User) (c : Int)
    (task : String) (week : Nat) (completed : Bool)
    (h : findUser users c = none) :
    updateProgress users c task week completed = some users := by
  unfold updateProgress
  rw [h]

/-- Witness for C6: updating an absent user in a store holding another
user returns the store unchanged. -/
theorem updateProgress_unknown_user_noop_witness :
    findUser [{ chatId := 2, startDate := some 0, progress := [] }] 1 = none ∧
    updateProgress [{ chatId := 2, startDate := some 0, progress := [] }] 1 "monday_1700" 1 true =
      some [{ chatId := 2, startDate := some 0, progress := [] }] :=
  ⟨by decide,
   updateProgress_unknown_user_noop [{ chatId := 2, startDate := some 0, progress := [] }] 1
     "monday_1700" 1 true (by decide)⟩

/-- C1: evaluating the code at the spec's own scenario: for an enrolled
user with no prior progress, after `recordCompletion(u, 1, "monday_1700",
true)` then `recordCompletion(u, 1, "monday_1600", false)`, `getProgress`
reports `daily["monday"] = {completed: 1, total: 1}` (not `{total: 2,
completed: 1}`) and week-level `total = 4` (not `2`): the per-day total
is never recomputed once the day entry exists, and the stored `total` /
`completed` keys are themselves counted as tasks. -/
theorem getProgress_monday_pair_divergence :
    ((updateProgress [{ chatId := 1, startDate := some 0, progress := [] }] 1 "monday_1700" 1 true).bind
      (fun s => updateProgress s 1 "monday_1600" 1 false)).map (fun s => (getProgress s 1 1).1) =
    some [("monday_1700", Val.vb true),
          ("daily", Val.vdaily [("monday", { completed := 1, total := 1 })]),
          ("total", Val.vn 4),
          ("completed", Val.vn 1),
          ("monday_1600", Val.vb false)] := by
  decide

/-- C2: the stored aggregates drift from the recount the invariant
demands: after the two recordings, the stored week `total` is 4 while
only 2 genuine task entries exist, and `daily["monday"].total` is 1
while 2 keys are prefixed `"monday_"`. -/
theorem weekProgress_counters_drift :
    ((updateProgress [{ chatId := 1, startDate := some 0, progress := [] }] 1 "monday_1700" 1 true).bind
      (fun s => updateProgress s 1 "monday_1600" 1 false)).map (fun s =>
        (getV ((getProgress s 1 1).1) "total",
         ((((getProgress s 1 1).1).map Prod.fst).filter (fun k =>
            decide (k ≠ "daily") && decide (k ≠ "total") && decide (k ≠ "completed"))).length,
         (match getV ((getProgress s 1 1).1) "daily" with
          | some (Val.vdaily d) => getD d "monday"
          | _ => none),
         ((((getProgress s 1 1).1).map Prod.fst).filter (fun k => jsStartsWith k "monday_")).length)) =
    some (some (Val.vn 4), 2, some { completed := 1, total := 1 }, 2) := by
  decide

/-- C3: recording two completed monday tasks leaves
`daily["monday"] = {completed: 2, total: 1}`, violating
`completed <= total`: the per-day `total` is only computed when the day
entry is first created, while `completed` is recomputed on every call. -/
theorem dayCounter_completed_exceeds_total :
    (((updateProgress [{ chatId := 1, startDate := some 0, progress := [] }] 1 "monday_1700" 1 true).bind
      (fun s => updateProgress s 1 "monday_1600" 1 true)).map (fun s =>
        match getV ((getProgress s 1 1).1) "daily" with
        | some (Val.vdaily d) => getD d "monday"
        | _ => none) =
      some (some { completed := 2, total := 1 })) ∧
    ({ completed := 2, total := 1 } : DayCounter).total <
      ({ completed := 2, total := 1 } : DayCounter).completed :=
  ⟨by decide, by decide⟩

/-- C8 counterexample: recording the underscore-free key `"total"` does
not leave its completion value stored — the final week recount overwrites
it with the numeric counter. -/
theorem malformed_key_total_counterexample :
    (updateWeekObj [] "total" true).bind (fun wp => getV wp "total") = some (Val.vn 1) ∧
    decide (Val.vn 1 = Val.vb true) = false :=
  ⟨by decide, by decide⟩

/-- C10 counterexample: recording the key `"daily"` with value `false`
does not leave the completion value stored — the daily-map
initialization immediately overwrites the falsy value with a fresh empty
map. -/
theorem daily_key_false_counterexample :
    (updateWeekObj [] "daily" false).bind (fun wp => getV wp "daily") = some (Val.vdaily []) ∧
    decide (Val.vdaily [] = Val.vb false) = false :=
  ⟨by decide, by decide⟩

/-- C7: `getProgress` is idempotent: a second call with no intervening
writes returns the same report and leaves the store exactly as the first
call left it — the lazy backfill never alters already-backfilled data. -/
theorem getProgress_idempotent (users : List User) (c : Int) (week : Nat) :
    getProgress (getProgress users c week).2 c week = getProgress users c week := by
  cases hf : findUser users c with
  | none =>
    have h1 : getProgress users c week = (emptyProgress, users) := by
      simp [getProgress, hf]
    rw [h1]
    exact h1
  | some u =>
    cases hw : getW u.progress week with
    | none =>
      have h1 : getProgress users c week = (emptyProgress, users) := by
        simp [getProgress, hf, hw]
      rw [h1]
      exact h1
    | some wp =>
      cases hd : truthy (getV wp "daily") with
      | true =>
        have h1 : getProgress users c week = (wp, users) := by
          simp [getProgress, hf, hw, hd]
        rw [h1]
        exact h1
      | false =>
        have h1 : getProgress users c week =
            (backfillWeek wp,
             replaceFirstUser users c
               { u with progress := setW u.progress week (backfillWeek wp) }) := by
          simp [getProgress, hf, hw, hd]
        have hc : u.chatId = c := findUser_chatId users c u hf
        have hf2 : findUser
            (replaceFirstUser users c
              { u with progress := setW u.progress week (backfillWeek wp) }) c =
            some { u with progress := setW u.progress week (backfillWeek wp) } :=
          findUser_replaceFirst users c u _ hf hc
        have hw2 : getW ({ u with progress := setW u.progress week (backfillWeek wp) } : User).progress week =
            some (backfillWeek wp) := getW_setW_self u.progress week (backfillWeek wp)
        have hd2 : truthy (getV (backfillWeek wp) "daily") = true := by
          unfold backfillWeek
          rw [getV_setV_self]
          rfl
        rw [h1]
        simp [getProgress, hf2, hw2, hd2]

theorem resolveSlot_fst (week : Nat) (gw : Nat → String → Option Workout)
    (gm : String → Option Meal) (day : String) (st : String × SlotTask) :
    (resolveSlot week gw gm day st).1 = st.1 := by
  unfold resolveSlot
  split
  · cases gw week day <;> rfl
  · split
    · cases gm day <;> rfl
    · rfl

/-- C5: the resolver never fails and returns exactly the template's slot
keys; the workout slot is overridden by a matching workout row, the
snack/main-meal slots gain `mealContent` from a matching meal row, and in
every other case the base template entry passes through unchanged. -/
theorem getScheduleForDay_spec (sched : List (String × SlotTask)) (week : Nat)
    (gw : Nat → String → Option Workout) (gm : String → Option Meal) (day : String) :
    ((getScheduleForDay sched week gw gm day).map Prod.fst = sched.map Prod.fst) ∧
    (∀ st ∈ sched, st.1 = "17:00" → ∀ w, gw week day = some w →
      (st.1, ({ title := w.title, description := w.description, mealContent := none } : ResolvedEntry)) ∈
        getScheduleForDay sched week gw gm day) ∧
    (∀ st ∈ sched, st.1 = "16:00" → ∀ m, gm day = some m →
      (st.1, ({ title := st.2.title, description := st.2.description,
                mealContent := some m.snack } : ResolvedEntry)) ∈
        getScheduleForDay sched week gw gm day) ∧
    (∀ st ∈ sched, st.1 = "22:00" → ∀ m, gm day = some m →
      (st.1, ({ title := st.2.title, description := st.2.description,
                mealContent := some m.mainMeal } : ResolvedEntry)) ∈
        getScheduleForDay sched week gw gm day) ∧
    (∀ st ∈ sched, (st.1 = "17:00" → gw week day = none) →
      ((st.1 = "16:00" ∨ st.1 = "22:00") → gm day = none) →
      (st.1, baseResolved st.2) ∈ getScheduleForDay sched week gw gm day) := by
  refine ⟨?_, ?_, ?_, ?_, ?_⟩
  · induction sched with
    | nil => rfl
    | cons st rest ih =>
      simp only [getScheduleForDay, List.map_cons] at ih ⊢
      rw [resolveSlot_fst, ih]
  · intro st hst h17 w hw
    have : resolveSlot week gw gm day st = (st.1, { title := w.title, description := w.description, mealContent := none }) := by
      unfold resolveSlot
      rw [if_pos h17, hw]
    rw [← this]
    exact List.mem_map_of_mem _ hst
  · intro st hst h16 m hm
    have : resolveSlot week gw gm day st =
        (st.1, { title := st.2.title, description := st.2.description, mealContent := some m.snack }) := by
      unfold resolveSlot
      rw [if_neg (by rw [h16]; decide), if_pos (Or.inl h16), hm]
      simp [h16]
    rw [← this]
    exact List.mem_map_of_mem _ hst
  · intro st hst h22 m hm
    have : resolveSlot week gw gm day st =
        (st.1, { title := st.2.title, description := st.2.description, mealContent := some m.mainMeal }) := by
      unfold resolveSlot
      rw [if_neg (by rw [h22]; decide), if_pos (Or.inr h22), hm]
      simp [h22]
    rw [← this]
    exact List.mem_map_of_mem _ hst
  · intro st hst hno17 hnomeal
    have : resolveSlot week gw gm day st = (st.1, baseResolved st.2) := by
      unfold resolveSlot
      by_cases h17 : st.1 = "17:00"
      · rw [if_pos h17, hno17 h17]
      · rw [if_neg h17]
        by_cases hm : st.1 = "16:00" ∨ st.1 = "22:00"
        · rw [if_pos hm, hnomeal hm]
        · rw [if_neg hm]
    rw [← this]
    exact List.mem_map_of_mem _ hst

/-- Witness for C5: a snack slot with a present meal row resolves to the
base entry plus the meal's snack as `mealContent`. -/
theorem getScheduleForDay_spec_witness :
    ("16:00", ({ title := "Snack", description := "d",
                 mealContent := some "apple" } : ResolvedEntry)) ∈
      getScheduleForDay [("16:00", { title := "Snack", description := "d" })] 1
        (fun _ _ => none)
        (fun _ => some { day := "Monday", mainMeal := "meat", snack := "apple" }) "Monday" :=
  (getScheduleForDay_spec [("16:00", { title := "Snack", description := "d" })] 1
      (fun _ _ => none)
      (fun _ => some { day := "Monday", mainMeal := "meat", snack := "apple" }) "Monday").2.2.1
    ("16:00", { title := "Snack", description := "d" }) (by decide) rfl
    { day := "Monday", mainMeal := "meat", snack := "apple" } rfl

theorem dailyOk_eq_of_getV (wp wp' : WeekObj)
    (h : getV wp "daily" = getV wp' "daily") : dailyOk wp = dailyOk wp' := by
  unfold dailyOk
  rw [h]

theorem ensureDaily_vdaily (wp : WeekObj) (h : dailyOk wp = true) :
    ∃ d, getV (ensureDaily wp) "daily" = some (Val.vdaily d) := by
  unfold ensureDaily
  cases hg : getV wp "daily" with
  | none => simp [truthy, hg, getV_setV_self]
  | some v =>
    cases v with
    | vb b =>
      cases b with
      | false => simp [truthy, hg, getV_setV_self]
      | true =>
        unfold dailyOk at h
        rw [hg] at h
        simp at h
    | vn n =>
      unfold dailyOk at h
      rw [hg] at h
      simp at h
      subst h
      simp [truthy, hg, getV_setV_self]
    | vdaily d =>
      exact ⟨d, by simp [truthy, hg]⟩

theorem recountDay_eq (wp : WeekObj) (day : String) (d0 : List (String × DayCounter))
    (h : getV wp "daily" = some (Val.vdaily d0)) :
    ∃ d2, recountDay wp day = some (setV wp "daily" (Val.vdaily d2)) := by
  unfold recountDay
  rw [h]
  exact ⟨_, rfl⟩

theorem daily_mem_ensureDaily (wp : WeekObj) :
    "daily" ∈ (ensureDaily wp).map Prod.fst := by
  unfold ensureDaily
  split
  · next h =>
    cases hg : getV wp "daily" with
    | none => rw [hg] at h; simp [truthy] at h
    | some v => exact getV_some_mem wp "daily" v hg
  · exact mem_keys_setV_self wp "daily" _

theorem updateWeekObj_no_underscore (wp : WeekObj) (task : String) (b : Bool)
    (h : hasUnderscore task = false) :
    updateWeekObj wp task b =
      some (recountWeek (ensureDaily (setV wp task (Val.vb b)))) := by
  simp [updateWeekObj, h]

theorem updateWeekObj_underscore (wp : WeekObj) (task : String) (b : Bool)
    (h : hasUnderscore task = true) :
    updateWeekObj wp task b =
      (recountDay (ensureDaily (setV wp task (Val.vb b))) (dayOf task)).map recountWeek := by
  simp [updateWeekObj, h]

/-- C8 (amended): for every task key with no underscore that is not one
of the reserved sibling keys `"daily"`, `"total"`, `"completed"` (which
collide with the aggregate bookkeeping kept in the same map — the
counterexample shows task key `"total"` ending up holding the numeric
recount instead of the recorded boolean), `recordCompletion` does not
fail, records the completion value, leaves the daily map untouched
(skipping per-day aggregation), and recomputes the week-level totals
over the flat object including the new key. -/
theorem updateProgress_malformed_key (wp : WeekObj) (key : String) (completed : Bool)
    (hund : hasUnderscore key = false)
    (hd : key ≠ "daily") (ht : key ≠ "total") (hc : key ≠ "completed") :
    (updateWeekObj wp key completed).isSome = true ∧
    (updateWeekObj wp key completed).bind (fun wp' => getV wp' key) = some (Val.vb completed) ∧
    (∀ D, getV wp "daily" = some (Val.vdaily D) →
      (updateWeekObj wp key completed).bind (fun wp' => getV wp' "daily") = some (Val.vdaily D)) ∧
    (updateWeekObj wp key completed).bind (fun wp' => getV wp' "total") =
      some (Val.vn (weekTaskKeys (setV wp key (Val.vb completed))).length) ∧
    (updateWeekObj wp key completed).bind (fun wp' => getV wp' "completed") =
      some (Val.vn (weekCompletedCount (setV wp key (Val.vb completed)))) := by
  rw [updateWeekObj_no_underscore wp key completed hund]
  refine ⟨rfl, ?_, ?_, ?_, ?_⟩
  · show getV (recountWeek (ensureDaily (setV wp key (Val.vb completed)))) key = _
    rw [getV_recountWeek_ne _ _ ht hc, getV_ensureDaily_ne _ _ hd, getV_setV_self]
  · intro D hD
    show getV (recountWeek (ensureDaily (setV wp key (Val.vb completed)))) "daily" = _
    have h1 : getV (setV wp key (Val.vb completed)) "daily" = some (Val.vdaily D) := by
      rw [getV_setV_ne _ _ _ _ hd]
      exact hD
    have h2 : ensureDaily (setV wp key (Val.vb completed)) = setV wp key (Val.vb completed) := by
      unfold ensureDaily
      rw [h1]
      rfl
    rw [getV_recountWeek_ne _ _ (by decide) (by decide), h2, h1]
  · show getV (recountWeek (ensureDaily (setV wp key (Val.vb completed)))) "total" = _
    rw [getV_recountWeek_total, weekTaskKeys_ensureDaily]
  · show getV (recountWeek (ensureDaily (setV wp key (Val.vb completed)))) "completed" = _
    rw [getV_recountWeek_completed, weekCompletedCount_ensureDaily]

/-- Witness for C8 (amended) at a concrete malformed key `"water"` over a
store that already holds a daily map: the update succeeds, stores the
value, and leaves the daily map untouched. -/
theorem updateProgress_malformed_key_witness :
    (updateWeekObj [("daily", Val.vdaily [("monday", { completed := 0, total := 1 })])] "water" true).bind
      (fun wp' => getV wp' "water") = some (Val.vb true) ∧
    (updateWeekObj [("daily", Val.vdaily [("monday", { completed := 0, total := 1 })])] "water" true).bind
      (fun wp' => getV wp' "daily") =
      some (Val.vdaily [("monday", { completed := 0, total := 1 })]) :=
  ⟨(updateProgress_malformed_key [("daily", Val.vdaily [("monday", { completed := 0, total := 1 })])]
      "water" true (by decide) (by decide) (by decide) (by decide)).2.1,
   (updateProgress_malformed_key [("daily", Val.vdaily [("monday", { completed := 0, total := 1 })])]
      "water" true (by decide) (by decide) (by decide) (by decide)).2.2.1
     [("monday", { completed := 0, total := 1 })] (by decide)⟩

/-- C10 (amended): the per-week aggregates live as sibling keys in the
same flat map as the task keys, and the week recount excludes exactly
the keys containing the substring `"daily"`.  Hence, starting from any
state whose `daily` field is absent, falsy, or a day-counter map, for
every task key containing `"daily"` other than the exact reserved key
`"daily"` (whose falsy write the daily-map initialization immediately
overwrites, as the counterexample shows), the update succeeds, the
completion value is stored, the recomputed `total`/`completed` equal the
counts over the original object — the new key is never counted — and the
stored `total` and `completed` keys are among the keys every subsequent
recount counts as tasks. -/
theorem updateProgress_daily_substring_key (wp : WeekObj) (key : String) (completed : Bool)
    (hok : dailyOk wp = true) (hinc : jsIncludes key "daily" = true) (hne : key ≠ "daily") :
    (updateWeekObj wp key completed).isSome = true ∧
    (updateWeekObj wp key completed).bind (fun wp' => getV wp' key) = some (Val.vb completed) ∧
    (updateWeekObj wp key completed).bind (fun wp' => getV wp' "total") =
      some (Val.vn (weekTaskKeys wp).length) ∧
    (updateWeekObj wp key completed).bind (fun wp' => getV wp' "completed") =
      some (Val.vn (weekCompletedCount wp)) ∧
    (∀ wp', updateWeekObj wp key completed = some wp' →
      "daily" ∈ wp'.map Prod.fst ∧ "total" ∈ weekTaskKeys wp' ∧ "completed" ∈ weekTaskKeys wp') := by
  have ht : key ≠ "total" := by
    intro h
    subst h
    exact absurd hinc (by decide)
  have hc : key ≠ "completed" := by
    intro h
    subst h
    exact absurd hinc (by decide)
  have hkeys1 : weekTaskKeys (ensureDaily (setV wp key (Val.vb completed))) = weekTaskKeys wp := by
    rw [weekTaskKeys_ensureDaily, weekTaskKeys_setV _ _ _ hinc]
  have hcnt1 : weekCompletedCount (ensureDaily (setV wp key (Val.vb completed))) = weekCompletedCount wp := by
    rw [weekCompletedCount_ensureDaily, weekCompletedCount_setV _ _ _ hinc]
  have hok1 : dailyOk (setV wp key (Val.vb completed)) = true := by
    rw [dailyOk_eq_of_getV _ wp (getV_setV_ne _ _ _ _ hne)]
    exact hok
  obtain ⟨d, hd2⟩ := ensureDaily_vdaily (setV wp key (Val.vb completed)) hok1
  cases hu : hasUnderscore key with
  | false =>
    rw [updateWeekObj_no_underscore wp key completed hu]
    refine ⟨rfl, ?_, ?_, ?_, ?_⟩
    · show getV (recountWeek (ensureDaily (setV wp key (Val.vb completed)))) key = _
      rw [getV_recountWeek_ne _ _ ht hc, getV_ensureDaily_ne _ _ hne, getV_setV_self]
    · show getV (recountWeek (ensureDaily (setV wp key (Val.vb completed)))) "total" = _
      rw [getV_recountWeek_total, hkeys1]
    · show getV (recountWeek (ensureDaily (setV wp key (Val.vb completed)))) "completed" = _
      rw [getV_recountWeek_completed, hcnt1]
    · intro wp' hwp'
      have hw : wp' = recountWeek (ensureDaily (setV wp key (Val.vb completed))) :=
        (Option.some_inj.mp hwp').symm
      subst hw
      refine ⟨?_, ?_, ?_⟩
      · exact mem_keys_setV_of_mem _ _ _ _
          (mem_keys_setV_of_mem _ _ _ _ (daily_mem_ensureDaily _))
      · exact List.mem_filter.mpr
          ⟨mem_keys_setV_of_mem _ _ _ _ (mem_keys_setV_self _ "total" _), by decide⟩
      · exact List.mem_filter.mpr ⟨mem_keys_setV_self _ "completed" _, by decide⟩
  | true =>
    rw [updateWeekObj_underscore wp key completed hu]
    obtain ⟨d2, hrd⟩ := recountDay_eq (ensureDaily (setV wp key (Val.vb completed))) (dayOf key) d hd2
    rw [hrd]
    have hkeys2 : weekTaskKeys
        (setV (ensureDaily (setV wp key (Val.vb completed))) "daily" (Val.vdaily d2)) =
        weekTaskKeys wp := by
      rw [weekTaskKeys_setV _ _ _ (by decide), hkeys1]
    have hcnt2 : weekCompletedCount
        (setV (ensureDaily (setV wp key (Val.vb completed))) "daily" (Val.vdaily d2)) =
        weekCompletedCount wp := by
      rw [weekCompletedCount_setV _ _ _ (by decide), hcnt1]
    refine ⟨rfl, ?_, ?_, ?_, ?_⟩
    · show getV (recountWeek (setV (ensureDaily (setV wp key (Val.vb completed))) "daily" (Val.vdaily d2))) key = _
      rw [getV_recountWeek_ne _ _ ht hc, getV_setV_ne _ _ _ _ (Ne.symm hne),
        getV_ensureDaily_ne _ _ hne, getV_setV_self]
    · show getV (recountWeek (setV (ensureDaily (setV wp key (Val.vb completed))) "daily" (Val.vdaily d2))) "total" = _
      rw [getV_recountWeek_total, hkeys2]
    · show getV (recountWeek (setV (ensureDaily (setV wp key (Val.vb completed))) "daily" (Val.vdaily d2))) "completed" = _
      rw [getV_recountWeek_completed, hcnt2]
    · intro wp' hwp'
      have hw : wp' = recountWeek
          (setV (ensureDaily (setV wp key (Val.vb completed))) "daily" (Val.vdaily d2)) :=
        (Option.some_inj.mp hwp').symm
      subst hw
      refine ⟨?_, ?_, ?_⟩
      · exact mem_keys_setV_of_mem _ _ _ _
          (mem_keys_setV_of_mem _ _ _ _ (mem_keys_setV_self _ "daily" _))
      · exact List.mem_filter.mpr
          ⟨mem_keys_setV_of_mem _ _ _ _ (mem_keys_setV_self _ "total" _), by decide⟩
      · exact List.mem_filter.mpr ⟨mem_keys_setV_self _ "completed" _, by decide⟩

/-- Witness for C10 (amended) at the concrete key `"xdaily"` over the
empty week object: the value is stored, the recomputed total counts no
task, and the stored `total` key is counted by subsequent recounts. -/
theorem updateProgress_daily_substring_key_witness :
    (updateWeekObj [] "xdaily" true).bind (fun wp' => getV wp' "xdaily") = some (Val.vb true) ∧
    (updateWeekObj [] "xdaily" true).bind (fun wp' => getV wp' "total") =
      some (Val.vn (weekTaskKeys []).length) ∧
    "total" ∈ weekTaskKeys [("xdaily", Val.vb true), ("daily", Val.vdaily []),
      ("total", Val.vn 0), ("completed", Val.vn 0)] :=
  ⟨(updateProgress_daily_substring_key [] "xdaily" true (by decide) (by decide) (by decide)).2.1,
   (updateProgress_daily_substring_key [] "xdaily" true (by decide) (by decide) (by decide)).2.2.1,
   ((updateProgress_daily_substring_key [] "xdaily" true (by decide) (by decide) (by decide)).2.2.2.2
     [("xdaily", Val.vb true), ("daily", Val.vdaily []), ("total", Val.vn 0), ("completed", Val.vn 0)]
     (by decide)).2.1⟩
